import Mathlib

/-!
Verification development for the PII detection/redaction engine of
`app_pii_inspector.py` (the active Streamlit variant; the two `if False:`
variants are disabled duplicates).

Texts are embedded as `List Char` (Python 3 strings are codepoint
sequences, and all offsets in the source are codepoint offsets).  Each
compiled regular expression of the source is embedded as a hand-written
matcher implementing that pattern's leftmost, backtracking semantics at a
given start position, together with a generic `finditer`-style scanner.
The character classes implement Python's `\w`, `\d`, `\s`, `[A-Z]`, etc.
over the character repertoire these rules and inputs use: ASCII plus
precomposed Hangul syllables (U+AC00..U+D7A3); Python's Unicode classes
are broader, but agree on that repertoire.

`re`-module region semantics embedded here: `pattern.finditer(text, pos,
endpos)` starts scanning at `pos`; `endpos` hides all characters at
offsets `≥ endpos` (so `\b` at `endpos` behaves like end of string), while
a `\b` at `pos` still sees the real character at `pos - 1`.  In contrast,
`pattern.sub(f, s)` on a slice `s = out[ke:wend]` (used by `replace_text`)
treats the slice as an independent string.
-/

namespace PII

/-- Python `\w` restricted to the repertoire used here: ASCII alphanumerics,
underscore, and Hangul syllables U+AC00..U+D7A3. -/
def isWordChar (c : Char) : Bool :=
  c.isAlphanum || c = '_' || (0xAC00 ≤ c.toNat && c.toNat ≤ 0xD7A3)

/-- Python `\s` over ASCII: space, tab, newline, carriage return,
vertical tab, form feed. -/
def isSpaceChar (c : Char) : Bool :=
  c = ' ' || c = '\t' || c = '\n' || c = '\r' || c = '\x0b' || c = '\x0c'

/-- The `[-\s]` separator class used by the phone/BRN/CRN patterns. -/
def isSepChar (c : Char) : Bool := c = '-' || isSpaceChar c

/-- Character at offset `i`, hidden when `i ≥ hi` (the `endpos` bound). -/
def ch? (t : List Char) (hi i : Nat) : Option Char :=
  if i < hi then t[i]? else none

/-- Is the character at offset `i` (with `endpos` bound `hi`) a word char? -/
def wordAt (t : List Char) (hi i : Nat) : Bool :=
  match ch? t hi i with
  | some c => isWordChar c
  | none => false

/-- Python `\b` at offset `i`: word-ness differs between `i - 1` and `i`.
Out-of-range (and beyond-`endpos`) characters count as non-word. -/
def boundary (t : List Char) (hi i : Nat) : Bool :=
  (if i = 0 then false else wordAt t hi (i - 1)) != wordAt t hi i

/-- Does the predicate hold for the character at offset `i`? -/
def chIs (p : Char → Bool) (t : List Char) (hi i : Nat) : Bool :=
  match ch? t hi i with
  | some c => p c
  | none => false

/-- Exactly `k` consecutive characters satisfying `p` starting at `i`
(the following character may or may not satisfy `p`). -/
def runAt (p : Char → Bool) (t : List Char) (hi i : Nat) : Nat → Bool
  | 0 => true
  | k + 1 => chIs p t hi i && runAt p t hi (i + 1) k

/-- Length of the maximal run of characters satisfying `p` from `i`
(`fuel` bounds the recursion; callers pass `hi`, which always suffices). -/
def runLen (p : Char → Bool) (t : List Char) (hi : Nat) : Nat → Nat → Nat
  | _, 0 => 0
  | i, fuel + 1 => if chIs p t hi i then runLen p t hi (i + 1) fuel + 1 else 0

/-- Case-insensitive literal match at offset `i` (Python `re.IGNORECASE`;
`Char.toLower` lowercases ASCII, which is all these literals need). -/
def litAt (t : List Char) (hi : Nat) : Nat → List Char → Bool
  | _, [] => true
  | i, c :: cs =>
    match ch? t hi i with
    | some d => d.toLower = c && litAt t hi (i + 1) cs
    | none => false

/-- A regex match: overall span `[start, stop)` plus up to two captured
groups (only the email pattern uses them; unused groups default to 0). -/
structure MRes where
  start : Nat
  stop : Nat
  g1s : Nat := 0
  g1e : Nat := 0
  g2s : Nat := 0
  g2e : Nat := 0
deriving DecidableEq

/-- Generic `finditer`: try an anchored match at each offset from `i`,
emitting non-overlapping matches left to right and resuming after each
match (Python resumes at the match end; all patterns here have positive
width, and `max m.stop (i+1)` also guards the empty-match case the way
CPython does). `stopOf` projects the match end; `fuel` bounds recursion
(callers pass `hi + 1`, which suffices since the offset strictly grows). -/
def scanFrom (tryAt : Nat → Option α) (stopOf : α → Nat) (hi : Nat) :
    Nat → Nat → List α
  | 0, _ => []
  | fuel + 1, i =>
    if hi ≤ i then []
    else
      match tryAt i with
      | some m => m :: scanFrom tryAt stopOf hi fuel (max (stopOf m) (i + 1))
      | none => scanFrom tryAt stopOf hi fuel (i + 1)

/-- Python slice `t[a:b]`. -/
def slice (t : List Char) (a b : Nat) : List Char := (t.take b).drop a

/-- One backtracking alternative of `PAT_MOBILE`'s tail
`[-\s]?\d{3,4}[-\s]?\d{4}\b` starting at `j`: `s1, s2 ∈ {1,0}` say whether
each optional separator is consumed, `d ∈ {4,3}` is the middle digit count. -/
def mobileCombo (t : List Char) (hi j s1 d s2 : Nat) : Option Nat :=
  if (s1 == 0 || chIs isSepChar t hi j) && runAt Char.isDigit t hi (j + s1) d &&
      (s2 == 0 || chIs isSepChar t hi (j + s1 + d)) &&
      runAt Char.isDigit t hi (j + s1 + d + s2) 4 &&
      boundary t hi (j + s1 + d + s2 + 4) then
    some (j + s1 + d + s2 + 4)
  else none

/-- `PAT_MOBILE = \b(01[016789])[-\s]?\d{3,4}[-\s]?\d{4}\b` anchored at `i`.
The engine's backtracking order — consume each optional separator before
skipping it, four middle digits before three — is the listed combo order. -/
def tryMobile (t : List Char) (hi i : Nat) : Option MRes :=
  if boundary t hi i && chIs (· = '0') t hi i && chIs (· = '1') t hi (i + 1) &&
      chIs (fun c => c = '0' || c = '1' || c = '6' || c = '7' || c = '8' || c = '9')
        t hi (i + 2) then
    (List.findSome? (fun sds => mobileCombo t hi (i + 3) sds.1 sds.2.1 sds.2.2)
      [(1,4,1),(1,4,0),(1,3,1),(1,3,0),(0,4,1),(0,4,0),(0,3,1),(0,3,0)]).map
      (fun e => { start := i, stop := e })
  else none

/-- `PAT_RRN = \b\d{2}(0[1-9]|1[0-2])(0[1-9]|[12]\d|3[01])[-]?\d{7}\b`
anchored at `i`.  The month/day alternatives are disjoint on their first
character, so a plain disjunction is the engine's behaviour; the optional
dash is tried consumed first. -/
def tryRRN (t : List Char) (hi i : Nat) : Option MRes :=
  if boundary t hi i && runAt Char.isDigit t hi i 2 &&
      ((chIs (· = '0') t hi (i + 2) && chIs (fun c => '1' ≤ c && c ≤ '9') t hi (i + 3)) ||
       (chIs (· = '1') t hi (i + 2) && chIs (fun c => '0' ≤ c && c ≤ '2') t hi (i + 3))) &&
      ((chIs (· = '0') t hi (i + 4) && chIs (fun c => '1' ≤ c && c ≤ '9') t hi (i + 5)) ||
       (chIs (fun c => c = '1' || c = '2') t hi (i + 4) && chIs Char.isDigit t hi (i + 5)) ||
       (chIs (· = '3') t hi (i + 4) && chIs (fun c => c = '0' || c = '1') t hi (i + 5))) then
    (List.findSome? (fun s =>
        if (s == 0 || chIs (· = '-') t hi (i + 6)) &&
            runAt Char.isDigit t hi (i + 6 + s) 7 && boundary t hi (i + 13 + s) then
          some (i + 13 + s)
        else none) [1, 0]).map (fun e => { start := i, stop := e })
  else none

/-- `PAT_EMAIL`'s local-part class `[A-Za-z0-9._%+-]`. -/
def isLocalChar (c : Char) : Bool :=
  c.isAlphanum || c = '.' || c = '_' || c = '%' || c = '+' || c = '-'

/-- `PAT_EMAIL`'s domain class `[A-Za-z0-9.-]`. -/
def isDomainChar (c : Char) : Bool := c.isAlphanum || c = '.' || c = '-'

/-- `[A-Za-z]` (`Char.isAlpha` is exactly the ASCII letters). -/
def isAsciiAlpha (c : Char) : Bool := c.isAlpha

/-- The domain part `([A-Za-z0-9.-]+\.[A-Za-z]{2,})\b` of `PAT_EMAIL` at
`ds`.  The greedy `+` takes the maximal domain-char run (length `R`) and
backtracks: a prefix of length `R` cannot be followed by `.` (a dot would
extend the run), so the engine effectively tries prefix lengths `R-1` down
to `1`, requiring a literal `.`, then at least two letters; the letter run
is maximal (a shorter one is followed by a letter, which is a word char,
failing `\b`), and `\b` after it means the next character is non-word. -/
def emailDomainEnd (t : List Char) (hi ds : Nat) : Option Nat :=
  List.findSome? (fun l =>
    if chIs (· = '.') t hi (ds + l) then
      let m := runLen isAsciiAlpha t hi (ds + l + 1) hi
      if 2 ≤ m && !wordAt t hi (ds + l + 1 + m) then some (ds + l + 1 + m) else none
    else none)
    (((List.range (runLen isDomainChar t hi ds hi)).reverse).filter (0 < ·))

/-- `PAT_EMAIL = \b([A-Za-z0-9._%+-]+)@([A-Za-z0-9.-]+\.[A-Za-z]{2,})\b`
anchored at `i`.  `@` is not a local char, so the greedy local-part run
stops exactly at the first non-local char, which must be `@` (backtracking
to a shorter local part leaves a local char where `@` is required, so it
never succeeds).  Group 1 is the local part, group 2 the domain. -/
def tryEmail (t : List Char) (hi i : Nat) : Option MRes :=
  if boundary t hi i then
    let L := runLen isLocalChar t hi i hi
    if 1 ≤ L && chIs (· = '@') t hi (i + L) then
      (emailDomainEnd t hi (i + L + 1)).map (fun e =>
        { start := i, stop := e, g1s := i, g1e := i + L, g2s := i + L + 1, g2e := e })
    else none
  else none

/-- The repetition-and-stop search of `PAT_CARD = \b(?:\d[ -]?){13,19}\b`
after `k` completed units at offset `pos`, in the engine's order:
continuing the repetition is preferred over stopping, and inside a unit
the optional `[ -]` is consumed before being skipped.  Recursion is
structural on `fuel`; depth is at most 20, so callers pass 20. -/
def cardRest (t : List Char) (hi : Nat) : Nat → Nat → Nat → Option Nat
  | 0, _, _ => none
  | fuel + 1, pos, k =>
    (if k < 19 && chIs Char.isDigit t hi pos then
       (if chIs (fun c => c = ' ' || c = '-') t hi (pos + 1) then
          cardRest t hi fuel (pos + 2) (k + 1)
        else none) <|>
       cardRest t hi fuel (pos + 1) (k + 1)
     else none) <|>
    (if 13 ≤ k && boundary t hi pos then some pos else none)

/-- `PAT_CARD` anchored at `i`. -/
def tryCard (t : List Char) (hi i : Nat) : Option MRes :=
  if boundary t hi i then
    (cardRest t hi 20 i 0).map (fun e => { start := i, stop := e })
  else none

/-- `PAT_PASSPORT = \b([MSRHD]\d{8}|[A-Z]{2}\d{7})\b` anchored at `i`.
Both alternatives span 9 characters, so the trailing `\b` check is shared. -/
def tryPassport (t : List Char) (hi i : Nat) : Option MRes :=
  if boundary t hi i &&
      ((chIs (fun c => c = 'M' || c = 'S' || c = 'R' || c = 'H' || c = 'D') t hi i &&
        runAt Char.isDigit t hi (i + 1) 8) ||
       (chIs Char.isUpper t hi i && chIs Char.isUpper t hi (i + 1) &&
        runAt Char.isDigit t hi (i + 2) 7)) &&
      boundary t hi (i + 9) then
    some { start := i, stop := i + 9 }
  else none

/-- `PAT_DRIVER = \b\d{2}-\d{2}-\d{6}-\d{2}\b|\b\d{2}-\d{6}-\d{2}\b`
anchored at `i`, first alternative preferred. -/
def tryDriver (t : List Char) (hi i : Nat) : Option MRes :=
  if boundary t hi i then
    if runAt Char.isDigit t hi i 2 && chIs (· = '-') t hi (i + 2) &&
        runAt Char.isDigit t hi (i + 3) 2 && chIs (· = '-') t hi (i + 5) &&
        runAt Char.isDigit t hi (i + 6) 6 && chIs (· = '-') t hi (i + 12) &&
        runAt Char.isDigit t hi (i + 13) 2 && boundary t hi (i + 15) then
      some { start := i, stop := i + 15 }
    else if runAt Char.isDigit t hi i 2 && chIs (· = '-') t hi (i + 2) &&
        runAt Char.isDigit t hi (i + 3) 6 && chIs (· = '-') t hi (i + 9) &&
        runAt Char.isDigit t hi (i + 10) 2 && boundary t hi (i + 12) then
      some { start := i, stop := i + 12 }
    else none
  else none

/-- One separator combination of `PAT_BRN`'s tail `[-\s]?\d{2}[-\s]?\d{5}\b`. -/
def brnCombo (t : List Char) (hi i s1 s2 : Nat) : Option Nat :=
  if (s1 == 0 || chIs isSepChar t hi (i + 3)) &&
      runAt Char.isDigit t hi (i + 3 + s1) 2 &&
      (s2 == 0 || chIs isSepChar t hi (i + 3 + s1 + 2)) &&
      runAt Char.isDigit t hi (i + 3 + s1 + 2 + s2) 5 &&
      boundary t hi (i + 3 + s1 + 2 + s2 + 5) then
    some (i + 3 + s1 + 2 + s2 + 5)
  else none

/-- `PAT_BRN = \b\d{3}[-\s]?\d{2}[-\s]?\d{5}\b` anchored at `i`;
separators are consumed before being skipped. -/
def tryBRN (t : List Char) (hi i : Nat) : Option MRes :=
  if boundary t hi i && runAt Char.isDigit t hi i 3 then
    (List.findSome? (fun p => brnCombo t hi i p.1 p.2) [(1,1),(1,0),(0,1),(0,0)]).map
      (fun e => { start := i, stop := e })
  else none

/-- `PAT_CRN = \b\d{6}[-\s]?\d{7}\b` anchored at `i`. -/
def tryCRN (t : List Char) (hi i : Nat) : Option MRes :=
  if boundary t hi i && runAt Char.isDigit t hi i 6 then
    (List.findSome? (fun s =>
        if (s == 0 || chIs isSepChar t hi (i + 6)) &&
            runAt Char.isDigit t hi (i + 6 + s) 7 && boundary t hi (i + 13 + s) then
          some (i + 13 + s)
        else none) [1, 0]).map (fun e => { start := i, stop := e })
  else none

/-- `PAT_PROJECT = \b202[0-9]000\d{2}[A-Z]\b` anchored at `i`. -/
def tryProject (t : List Char) (hi i : Nat) : Option MRes :=
  if boundary t hi i && chIs (· = '2') t hi i && chIs (· = '0') t hi (i + 1) &&
      chIs (· = '2') t hi (i + 2) && chIs Char.isDigit t hi (i + 3) &&
      chIs (· = '0') t hi (i + 4) && chIs (· = '0') t hi (i + 5) &&
      chIs (· = '0') t hi (i + 6) && runAt Char.isDigit t hi (i + 7) 2 &&
      chIs Char.isUpper t hi (i + 9) && boundary t hi (i + 10) then
    some { start := i, stop := i + 10 }
  else none

/-- First alternative `\b\d{10,14}\b` of `PAT_ACCT_NUM` at `i` (after the
shared leading `\b`): the greedy `\d{10,14}` tries 14 digits down to 10,
each followed by `\b`. -/
def acctAlt1 (t : List Char) (hi i : Nat) : Option Nat :=
  List.findSome? (fun k =>
    if runAt Char.isDigit t hi i k && boundary t hi (i + k) then some (i + k) else none)
    [14, 13, 12, 11, 10]

/-- Second alternative `\b\d{2,6}-\d{2,6}-\d{2,6}\b` of `PAT_ACCT_NUM` at
`i`: three greedy digit groups, each tried from 6 digits down to 2, with
full backtracking across the groups. -/
def acctAlt2 (t : List Char) (hi i : Nat) : Option Nat :=
  List.findSome? (fun k1 =>
    if runAt Char.isDigit t hi i k1 && chIs (· = '-') t hi (i + k1) then
      List.findSome? (fun k2 =>
        if runAt Char.isDigit t hi (i + k1 + 1) k2 &&
            chIs (· = '-') t hi (i + k1 + 1 + k2) then
          List.findSome? (fun k3 =>
            if runAt Char.isDigit t hi (i + k1 + 1 + k2 + 1) k3 &&
                boundary t hi (i + k1 + 1 + k2 + 1 + k3) then
              some (i + k1 + 1 + k2 + 1 + k3)
            else none) [6, 5, 4, 3, 2]
        else none) [6, 5, 4, 3, 2]
    else none) [6, 5, 4, 3, 2]

/-- `PAT_ACCT_NUM = \b\d{10,14}\b|\b\d{2,6}-\d{2,6}-\d{2,6}\b` anchored at
`i`, first alternative preferred. -/
def tryAcctNum (t : List Char) (hi i : Nat) : Option MRes :=
  if boundary t hi i then
    ((acctAlt1 t hi i) <|> (acctAlt2 t hi i)).map (fun e => { start := i, stop := e })
  else none

/-- `KEYWORD_ACCT = (계좌|account|입금|송금|bank)`, `re.IGNORECASE`,
anchored at `i`; alternatives tried in the pattern's order. -/
def tryKeywordAcct (t : List Char) (hi i : Nat) : Option (Nat × Nat) :=
  List.findSome? (fun w => if litAt t hi i w then some (i, i + w.length) else none)
    ["계좌".toList, "account".toList, "입금".toList, "송금".toList, "bank".toList]

/-- `KEYWORD_CRN = (법인등록번호|법인번호|corporate\s*registration)`,
`re.IGNORECASE`, anchored at `i`.  The greedy `\s*` takes the maximal
whitespace run; `registration` starts with a non-space character, so no
shorter run can be followed by it. -/
def tryKeywordCrn (t : List Char) (hi i : Nat) : Option (Nat × Nat) :=
  (List.findSome? (fun w => if litAt t hi i w then some (i, i + w.length) else none)
    ["법인등록번호".toList, "법인번호".toList]) <|>
  (if litAt t hi i "corporate".toList then
     let w := runLen isSpaceChar t hi (i + 9) hi
     if litAt t hi (i + 9 + w) "registration".toList then some (i, i + 9 + w + 12)
     else none
   else none)

/-- `PAT_MOBILE.finditer(text, pos, hi)`. -/
def mobile_finditer (t : List Char) (pos hi : Nat) : List MRes :=
  scanFrom (tryMobile t hi) MRes.stop hi (hi + 1) pos

/-- `PAT_RRN.finditer(text, pos, hi)`. -/
def rrn_finditer (t : List Char) (pos hi : Nat) : List MRes :=
  scanFrom (tryRRN t hi) MRes.stop hi (hi + 1) pos

/-- `PAT_EMAIL.finditer(text, pos, hi)`. -/
def email_finditer (t : List Char) (pos hi : Nat) : List MRes :=
  scanFrom (tryEmail t hi) MRes.stop hi (hi + 1) pos

/-- `PAT_CARD.finditer(text, pos, hi)`. -/
def card_finditer (t : List Char) (pos hi : Nat) : List MRes :=
  scanFrom (tryCard t hi) MRes.stop hi (hi + 1) pos

/-- `PAT_PASSPORT.finditer(text, pos, hi)`. -/
def passport_finditer (t : List Char) (pos hi : Nat) : List MRes :=
  scanFrom (tryPassport t hi) MRes.stop hi (hi + 1) pos

/-- `PAT_DRIVER.finditer(text, pos, hi)`. -/
def driver_finditer (t : List Char) (pos hi : Nat) : List MRes :=
  scanFrom (tryDriver t hi) MRes.stop hi (hi + 1) pos

/-- `PAT_BRN.finditer(text, pos, hi)`. -/
def brn_finditer (t : List Char) (pos hi : Nat) : List MRes :=
  scanFrom (tryBRN t hi) MRes.stop hi (hi + 1) pos

/-- `PAT_CRN.finditer(text, pos, hi)`. -/
def crn_finditer (t : List Char) (pos hi : Nat) : List MRes :=
  scanFrom (tryCRN t hi) MRes.stop hi (hi + 1) pos

/-- `PAT_PROJECT.finditer(text, pos, hi)`. -/
def project_finditer (t : List Char) (pos hi : Nat) : List MRes :=
  scanFrom (tryProject t hi) MRes.stop hi (hi + 1) pos

/-- `PAT_ACCT_NUM.finditer(text, pos, hi)`. -/
def acct_num_finditer (t : List Char) (pos hi : Nat) : List MRes :=
  scanFrom (tryAcctNum t hi) MRes.stop hi (hi + 1) pos

/-- `KEYWORD_ACCT.finditer(text, pos, hi)`, spans only. -/
def keyword_acct_finditer (t : List Char) (pos hi : Nat) : List (Nat × Nat) :=
  scanFrom (tryKeywordAcct t hi) Prod.snd hi (hi + 1) pos

/-- `KEYWORD_CRN.finditer(text, pos, hi)`, spans only. -/
def keyword_crn_finditer (t : List Char) (pos hi : Nat) : List (Nat × Nat) :=
  scanFrom (tryKeywordCrn t hi) Prod.snd hi (hi + 1) pos

/-- Numeric value of a digit character. -/
def dval (c : Char) : Nat := c.toNat - '0'.toNat

/-- `re.sub(r"\D", "", s)` followed by per-character `int`: the digit list
of a string. -/
def digitsOf (s : List Char) : List Nat := (s.filter Char.isDigit).map dval

/-- Python `s[-n:]` for `n ≥ 1` (all call sites use 2, 3 or 4): the last
`n` elements, or all of them when fewer. -/
def lastN (n : Nat) (s : List Char) : List Char := s.drop (s.length - n)

/-- `luhn_check`'s loop over the reversed digit list: double every second
digit starting with the second-from-right, subtracting 9 when the doubled
value exceeds 9, and sum. -/
def luhnFold : List Nat → Bool → Nat
  | [], _ => 0
  | d :: rest, alt =>
    (if alt then (if d * 2 > 9 then d * 2 - 9 else d * 2) else d) + luhnFold rest (!alt)

/-- `luhn_check(num)`: strip non-digits, fail below 13 digits, Luhn sum
divisible by 10. -/
def luhn_check (num : List Char) : Bool :=
  let ds := digitsOf num
  if ds.length < 13 then false else luhnFold ds.reverse false % 10 == 0

/-- `keep_tail_mask(s, keep)` with the default `mask_char="*"`: strip
whitespace, and if the remainder is longer than `keep`, replace all but
the last `keep` characters with `*`; otherwise return the ORIGINAL `s`.
(Python's `s2[-keep:]` equals the last `keep` characters since every call
site passes `keep ∈ {2,3,4}`.) -/
def keep_tail_mask (s : List Char) (keep : Nat) : List Char :=
  let s2 := s.filter (fun c => !isSpaceChar c)
  if keep < s2.length then
    List.replicate (s2.length - keep) '*' ++ s2.drop (s2.length - keep)
  else s

/-- `brn_check(num)`: exactly 10 digits; weighted sum of the first nine
with weights `[1,3,7,1,3,7,1,3,5]`, plus `(ds[8]*5)//10`; the derived
check digit `(10 - s % 10) % 10` must equal the tenth digit. -/
def brn_check (num : List Char) : Bool :=
  let ds := digitsOf num
  if ds.length != 10 then false
  else
    let s := (List.zipWith (· * ·) (ds.take 9) [1,3,7,1,3,7,1,3,5]).sum +
      ds.getD 8 0 * 5 / 10
    (10 - s % 10) % 10 == ds.getD 9 0

/-- `looks_like_rrn_ymd(num13)`: 13 digits whose positions 2-3 parse as a
month in `[1,12]` and 4-5 as a day in `[1,31]` (the `try/except` in the
source can never fire, since the characters are digits). -/
def looks_like_rrn_ymd (num13 : List Char) : Bool :=
  let n := digitsOf num13
  if n.length != 13 then false
  else
    let mm := n.getD 2 0 * 10 + n.getD 3 0
    let dd := n.getD 4 0 * 10 + n.getD 5 0
    (1 ≤ mm && mm ≤ 12) && (1 ≤ dd && dd ≤ 31)

/-- `re.sub(r'\\D', '', s)`: the RAW string `r'\\D'` denotes the two
characters backslash-backslash-D, which as a regex is an ESCAPED literal
backslash followed by a literal `D` — so this removes occurrences of the
two-character sequence `\D` from `s`, and does NOT strip non-digits.
(Used verbatim by `mask_driver`, `mask_brn` and the ACCT window mask;
contrast with `re.sub(r"\D", ...)` = `digitsOf` used elsewhere.) -/
def sub_backslashD : List Char → List Char
  | [] => []
  | '\\' :: 'D' :: rest => sub_backslashD rest
  | c :: rest => c :: sub_backslashD rest

/-- `mask_mobile(m)`: `TEL[***-****-**XY]` with the last two digits of the
digit-only match. -/
def mask_mobile (t : List Char) (m : MRes) : List Char :=
  "TEL[***-****-**".toList ++ lastN 2 ((slice t m.start m.stop).filter Char.isDigit) ++
    "]".toList

/-- `mask_rrn(m)`: `RRN[******-***WXYZ]` with the last four characters of
the raw match. -/
def mask_rrn (t : List Char) (m : MRes) : List Char :=
  "RRN[******-***".toList ++ lastN 4 (slice t m.start m.stop) ++ "]".toList

/-- `mask_email(m)`: keep the first local-part character (or fully mask a
one-character local part to `*`) and the domain unchanged. -/
def mask_email (t : List Char) (m : MRes) : List Char :=
  let loc := slice t m.g1s m.g1e
  let masked := if 1 < loc.length then loc.take 1 ++ List.replicate (loc.length - 1) '*'
    else ['*']
  "EMAIL[".toList ++ masked ++ ['@'] ++ slice t m.g2s m.g2e ++ "]".toList

/-- `mask_card(m)`: the raw match unchanged unless it passes Luhn, else
`CARD[**** **** **** WXYZ]` with the last four digits. -/
def mask_card (t : List Char) (m : MRes) : List Char :=
  let raw := slice t m.start m.stop
  if !luhn_check raw then raw
  else "CARD[**** **** **** ".toList ++ lastN 4 (raw.filter Char.isDigit) ++ "]".toList

/-- `mask_passport(m)`: `PP[...]` around `keep_tail_mask(raw, 3)`. -/
def mask_passport (t : List Char) (m : MRes) : List Char :=
  "PP[".toList ++ keep_tail_mask (slice t m.start m.stop) 3 ++ "]".toList

/-- `mask_driver(m)`: `DL[...]` around
`keep_tail_mask(re.sub(r'\\D','', raw), 2)` — because of the `r'\\D'`
raw-string (see `sub_backslashD`) the separators are NOT stripped. -/
def mask_driver (t : List Char) (m : MRes) : List Char :=
  "DL[".toList ++ keep_tail_mask (sub_backslashD (slice t m.start m.stop)) 2 ++ "]".toList

/-- `mask_brn(m)`: `BRN[***-**-**XYZ]` with the last three characters of
`re.sub(r'\\D','', raw)` (separators not stripped, see `sub_backslashD`). -/
def mask_brn (t : List Char) (m : MRes) : List Char :=
  "BRN[***-**-**".toList ++ lastN 3 (sub_backslashD (slice t m.start m.stop)) ++ "]".toList

/-- `mask_crn(m)`: `CRN[******-****XYZ]` with the last three digits
(this one uses the correct `r"\D"`). -/
def mask_crn (t : List Char) (m : MRes) : List Char :=
  "CRN[******-****".toList ++ lastN 3 ((slice t m.start m.stop).filter Char.isDigit) ++
    "]".toList

/-- `mask_project(m)`: first seven characters of the raw match plus `***`. -/
def mask_project (t : List Char) (m : MRes) : List Char :=
  "PRJ[".toList ++ (slice t m.start m.stop).take 7 ++ "***".toList

/-- The source `Rule` dataclass.  A compiled pattern is embedded as its
`finditer` function `(text, pos, endpos) ↦ matches`; `mask_fn` and
`validator` receive the text and the match (the source passes the
`re.Match` object, from which they read `group(0)` and groups 1-2). -/
structure Rule where
  name : String
  finditer : List Char → Nat → Nat → List MRes
  mask_fn : Option (List Char → MRes → List Char) := none
  validator : Option (List Char → MRes → Bool) := none
  color : String := "#ffd54f"

/-- Index of the nine catalogue rules, in registration order. -/
inductive RuleId
  | mobile | rrn | email | card | passport | driver | brn | crn | project
deriving DecidableEq

/-- The rule each `RuleId` names, exactly as built by `default_rules()`. -/
def ruleOf : RuleId → Rule
  | .mobile =>
    { name := "전화번호", finditer := mobile_finditer,
      mask_fn := some mask_mobile, color := "#c8e6c9" }
  | .rrn =>
    { name := "주민등록번호", finditer := rrn_finditer,
      mask_fn := some mask_rrn, color := "#ffecb3" }
  | .email =>
    { name := "이메일", finditer := email_finditer,
      mask_fn := some mask_email, color := "#bbdefb" }
  | .card =>
    { name := "카드번호", finditer := card_finditer,
      mask_fn := some mask_card,
      validator := some (fun t m => luhn_check (slice t m.start m.stop)),
      color := "#ffcdd2" }
  | .passport =>
    { name := "여권", finditer := passport_finditer,
      mask_fn := some mask_passport, color := "#e1bee7" }
  | .driver =>
    { name := "운전면허", finditer := driver_finditer,
      mask_fn := some mask_driver, color := "#d7ccc8" }
  | .brn =>
    { name := "사업자등록번호", finditer := brn_finditer,
      mask_fn := some mask_brn,
      validator := some (fun t m => brn_check (slice t m.start m.stop)),
      color := "#fff0b3" }
  | .crn =>
    { name := "법인등록번호", finditer := crn_finditer,
      mask_fn := some mask_crn,
      validator := some (fun t m => !looks_like_rrn_ymd (slice t m.start m.stop)),
      color := "#e0f7fa" }
  | .project =>
    { name := "연구과제번호", finditer := project_finditer,
      mask_fn := some mask_project, color := "#f0b3ff" }

/-- `default_rules()`: the nine rules in registration order. -/
def default_rules : List Rule :=
  [ruleOf .mobile, ruleOf .rrn, ruleOf .email, ruleOf .card, ruleOf .passport,
   ruleOf .driver, ruleOf .brn, ruleOf .crn, ruleOf .project]

/-- The source `Span` dataclass: label and half-open `[start, stop)`
(the source field `end` is a Lean keyword, hence `stop`). -/
structure Span where
  rname : String
  start : Nat
  stop : Nat
deriving DecidableEq

/-- One rule's contribution to `find_spans`: every `finditer` match that
its validator (if any) accepts. -/
def ruleSpans (text : List Char) (r : Rule) : List Span :=
  (r.finditer text 0 text.length).filterMap fun m =>
    if (match r.validator with | some v => v text m | none => true) then
      some { rname := r.name, start := m.start, stop := m.stop }
    else none

/-- The candidate list `spans` built by `find_spans` before overlap
resolution: rule matches in registration order, then the keyword-proximity
account spans, then (optionally) the keyword-proximity CRN spans. -/
def candidate_spans (text : List Char) (rules : List Rule)
    (use_account_near_keyword : Bool) (account_window : Nat)
    (use_crn_keyword : Bool) : List Span :=
  (rules.flatMap (ruleSpans text)) ++
  (if use_account_near_keyword then
    (keyword_acct_finditer text 0 text.length).flatMap fun km =>
      (acct_num_finditer text km.2 (min text.length (km.2 + account_window))).map
        fun am => { rname := "계좌(키워드근접)", start := am.start, stop := am.stop }
   else []) ++
  (if use_crn_keyword then
    (keyword_crn_finditer text 0 text.length).flatMap fun km =>
      (crn_finditer text km.2 (min text.length (km.2 + 50))).filterMap fun cm =>
        if looks_like_rrn_ymd (slice text cm.start cm.stop) then none
        else some { rname := "법인등록번호(CRN)", start := cm.start, stop := cm.stop }
   else [])

/-- The sort key order `(start, end)` used by `spans.sort(key=...)`. -/
def spanKeyLe (a b : Span) : Prop :=
  a.start < b.start ∨ (a.start = b.start ∧ a.stop ≤ b.stop)

instance : DecidableRel spanKeyLe := fun a b =>
  inferInstanceAs (Decidable (a.start < b.start ∨ (a.start = b.start ∧ a.stop ≤ b.stop)))

/-- `spans.sort(key=lambda x: (x.start, x.end))`.  Python's sort is
stable, and a stable sort by a total preorder is unique as a function;
`List.insertionSort` inserts earlier elements in front of later
equal-key elements, so it is that same stable sort. -/
def sortSpans (l : List Span) : List Span := List.insertionSort spanKeyLe l

/-- The greedy sweep of `find_spans`: keep a span iff its start is at or
after the end of the last kept span (`last` starts at `-1`). -/
def sweep : List Span → Int → List Span
  | [], _ => []
  | sp :: rest, last =>
    if last ≤ (sp.start : Int) then sp :: sweep rest (sp.stop : Int)
    else sweep rest last

/-- The overlap-resolution step of `find_spans`: sort by `(start, end)`,
then sweep. -/
def resolve (spans : List Span) : List Span := sweep (sortSpans spans) (-1)

/-- `find_spans(text, rules, use_account_near_keyword, account_window,
use_crn_keyword)`. -/
def find_spans (text : List Char) (rules : List Rule)
    (use_account_near_keyword : Bool := true) (account_window : Nat := 50)
    (use_crn_keyword : Bool := false) : List Span :=
  resolve (candidate_spans text rules use_account_near_keyword account_window
    use_crn_keyword)

/-- `pattern.sub(repl, t)` with a function replacement, over the listed
matches (already non-overlapping, left to right): each match is replaced
by `f t m`, except that a failing validator keeps the original
`m.group(0)` (that is what `repl` returns in the source). -/
def applyMask (t : List Char) (validator : Option (List Char → MRes → Bool))
    (f : List Char → MRes → List Char) : Nat → List MRes → List Char
  | i, [] => t.drop i
  | i, m :: ms =>
    slice t i m.start ++
    (if (match validator with | some v => v t m | none => true) then f t m
     else slice t m.start m.stop) ++
    applyMask t validator f m.stop ms

/-- One pass `out = r.pattern.sub(repl, out)` of `replace_text` (skipped
when the rule has no `mask_fn`). -/
def ruleSub (t : List Char) (r : Rule) : List Char :=
  match r.mask_fn with
  | none => t
  | some f => applyMask t r.validator f 0 (r.finditer t 0 t.length)

/-- The ACCT replacement lambda of `replace_text`:
`f"ACCT[{keep_tail_mask(re.sub(r'\\D','', m.group(0)), 4)}]"` (note the
`r'\\D'` bug, see `sub_backslashD`). -/
def acctMaskFn (w : List Char) (m : MRes) : List Char :=
  "ACCT[".toList ++ keep_tail_mask (sub_backslashD (slice w m.start m.stop)) 4 ++
    "]".toList

/-- `PAT_ACCT_NUM.sub(...)` over a window slice, which Python treats as an
independent string (so `\b` at the slice edges sees the string ends). -/
def substAcctMask (w : List Char) : List Char :=
  applyMask w none acctMaskFn 0 (acct_num_finditer w 0 w.length)

/-- `KEYWORD_ACCT.search(t, p, endpos)`: the leftmost match starting at or
after `p` and contained in `[p, endpos)`; `fuel` bounds recursion
(callers pass `endpos + 1`). -/
def searchKeywordAcct (t : List Char) (endpos : Nat) : Nat → Nat → Option (Nat × Nat)
  | 0, _ => none
  | fuel + 1, p =>
    if endpos ≤ p then none
    else
      match tryKeywordAcct t endpos p with
      | some km => some km
      | none => searchKeywordAcct t endpos fuel (p + 1)

/-- The account-masking `while` loop of `replace_text`, instrumented: the
first component is the rebuilt text (`"".join(res)`), the second the list
of keyword anchors the loop processed, in order (ghost instrumentation
used only by theorems; the loop itself is the faithful translation).
Each iteration searches `[i, min(len, i+800))` for an anchor, emits the
text up to and including the anchor, substitutes account candidates in
the window slice `out[ke:wend]`, and resumes at `wend`.  Every iteration
strictly increases `i` (anchors are non-empty and lie at or after `i`),
so fuel `out.length + 1` suffices; when `out` is empty the loop never
runs and Python returns `out` itself, which is also the empty result. -/
def acctLoopI (out : List Char) (window : Nat) : Nat → Nat → List Char × List (Nat × Nat)
  | _, 0 => ([], [])
  | i, fuel + 1 =>
    if i < out.length then
      match searchKeywordAcct out (min out.length (i + 800))
          (min out.length (i + 800) + 1) i with
      | none => (out.drop i, [])
      | some (ks, ke) =>
        let wend := min out.length (ke + window)
        let rest := acctLoopI out window wend fuel
        (slice out i ks ++ slice out ks ke ++ substAcctMask (slice out ke wend) ++ rest.1,
         (ks, ke) :: rest.2)
    else ([], [])

/-- `replace_text(text, rules, use_account_near_keyword, account_window)`:
sequential per-rule global substitution in registration order, then the
keyword-windowed account-masking pass. -/
def replace_text (text : List Char) (rules : List Rule)
    (use_account_near_keyword : Bool := true) (account_window : Nat := 50) : List Char :=
  let out := rules.foldl ruleSub text
  if use_account_near_keyword then (acctLoopI out account_window 0 (out.length + 1)).1
  else out

/-- Strict version of the `(start, end)` sort key order. -/
def spanKeyLt (a b : Span) : Prop :=
  a.start < b.start ∨ (a.start = b.start ∧ a.stop < b.stop)

instance : IsTotal Span spanKeyLe :=
  ⟨fun a b => by unfold spanKeyLe; omega⟩

instance : IsTrans Span spanKeyLe :=
  ⟨fun a b c h1 h2 => by unfold spanKeyLe at *; omega⟩

instance : IsAntisymm Span spanKeyLt :=
  ⟨fun a b h1 h2 => by unfold spanKeyLt at *; exfalso; omega⟩

/-- Concrete texts used by the theorems below. -/
def dots (n : Nat) : List Char := List.replicate n '.'

/-- `"bank 010-1234-5678-a@12-34-567890.co"`: a mobile number whose first
13 characters double as an account-shaped number, embedded in an email
address whose domain contains a second account-shaped number. -/
def exT1 : List Char := "bank 010-1234-5678-a@12-34-567890.co".toList

/-- The end-to-end example input of the specification. -/
def exT2 : List Char := "연락처 010-1234-5678, email: a@b.com".toList

/-- 13 digits that are simultaneously a date-shaped RRN match and a
Luhn-valid card number. -/
def exT3 : List Char := "9001011234563".toList

/-- A second `bank` anchor inside the first anchor's 50-unit window, with
a 10-digit run inside the second window but past the first window's end. -/
def exT5 : List Char :=
  "bank".toList ++ dots 20 ++ "bank".toList ++ dots 26 ++ "0123456789".toList

/-- Anchor, then a 10-digit run beginning at offset 50 after the anchor
end (exactly at the window end). -/
def exT8a : List Char := "bank".toList ++ dots 50 ++ "0123456789".toList

/-- Anchor, then a 10-digit run beginning at offset 51 after the anchor end. -/
def exT8b : List Char := "bank".toList ++ dots 51 ++ "0123456789".toList

/-- Anchor, then a 10-digit run beginning at offset 49 after the anchor end. -/
def exT8c : List Char := "bank".toList ++ dots 49 ++ "0123456789".toList

/-- Anchor, then a 10-digit run beginning at offset 40 after the anchor
end, so that it ends exactly at the window end and is masked. -/
def exT8d : List Char := "bank".toList ++ dots 40 ++ "0123456789".toList

/-- A window slice holding one dashed account candidate, for the C5
witness. -/
def exW : List Char := " 123456-78-90".toList

/-- The mobile and email rules, in registration order. -/
def rulesME : List Rule := [ruleOf .mobile, ruleOf .email]

/- ------------------------------------------------------------------ -/
/- Helper lemmas.                                                      -/
/- ------------------------------------------------------------------ -/

theorem findSome_some {α β : Type} {f : α → Option β} :
    ∀ {l : List α} {b : β}, l.findSome? f = some b → ∃ a, a ∈ l ∧ f a = some b := by
  intro l
  induction l with
  | nil => intro b h; simp [List.findSome?] at h
  | cons x xs ih =>
    intro b h
    rw [List.findSome?_cons] at h
    cases hfx : f x with
    | some y =>
      rw [hfx] at h
      exact ⟨x, List.mem_cons_self x xs, hfx.trans h⟩
    | none =>
      rw [hfx] at h
      obtain ⟨a, ha, hfa⟩ := ih h
      exact ⟨a, List.mem_cons_of_mem x ha, hfa⟩

theorem ite_some {β : Type} {c : Prop} [Decidable c] {a b : β}
    (h : (if c then some a else none) = some b) : b = a ∧ c := by
  split at h
  · exact ⟨(Option.some.inj h).symm, by assumption⟩
  · simp at h

theorem orElse_some {β : Type} {a b : Option β} {x : β} (h : (a <|> b) = some x) :
    a = some x ∨ b = some x := by
  cases a with
  | none => right; exact h
  | some y => left; exact h

theorem tryMobile_width {t : List Char} {hi i : Nat} {m : MRes}
    (h : tryMobile t hi i = some m) : m.start = i ∧ i < m.stop := by
  unfold tryMobile at h
  split at h
  · obtain ⟨e, he, rfl⟩ := Option.map_eq_some'.mp h
    obtain ⟨sds, -, hc⟩ := findSome_some he
    unfold mobileCombo at hc
    obtain ⟨rfl, -⟩ := ite_some hc
    exact ⟨rfl, by show i < i + 3 + sds.1 + sds.2.1 + sds.2.2 + 4; omega⟩
  · simp at h

theorem tryRRN_width {t : List Char} {hi i : Nat} {m : MRes}
    (h : tryRRN t hi i = some m) : m.start = i ∧ i < m.stop := by
  unfold tryRRN at h
  split at h
  · obtain ⟨e, he, rfl⟩ := Option.map_eq_some'.mp h
    obtain ⟨s, -, hc⟩ := findSome_some he
    obtain ⟨rfl, -⟩ := ite_some hc
    exact ⟨rfl, by show i < i + 13 + s; omega⟩
  · simp at h

theorem emailDomainEnd_ge {t : List Char} {hi ds e : Nat}
    (h : emailDomainEnd t hi ds = some e) : ds < e := by
  unfold emailDomainEnd at h
  obtain ⟨l, -, hc⟩ := findSome_some h
  split at hc
  · obtain ⟨rfl, -⟩ := ite_some hc
    omega
  · simp at hc

theorem tryEmail_width {t : List Char} {hi i : Nat} {m : MRes}
    (h : tryEmail t hi i = some m) : m.start = i ∧ i < m.stop := by
  unfold tryEmail at h
  split at h
  · dsimp only at h
    split at h
    · obtain ⟨e, he, rfl⟩ := Option.map_eq_some'.mp h
      have := emailDomainEnd_ge he
      exact ⟨rfl, by show i < e; omega⟩
    · simp at h
  · simp at h

theorem cardRest_ge {t : List Char} {hi : Nat} :
    ∀ {fuel pos k e : Nat}, cardRest t hi fuel pos k = some e → pos + (13 - k) ≤ e := by
  intro fuel
  induction fuel with
  | zero => intro pos k e h; simp [cardRest] at h
  | succ fuel ih =>
    intro pos k e h
    unfold cardRest at h
    rcases orElse_some h with h1 | h2
    · split at h1
      · rcases orElse_some h1 with h3 | h4
        · split at h3
          · have := ih h3; omega
          · simp at h3
        · have := ih h4; omega
      · simp at h1
    · obtain ⟨rfl, hc⟩ := ite_some h2
      simp only [Bool.and_eq_true, decide_eq_true_eq] at hc
      omega

theorem tryCard_width {t : List Char} {hi i : Nat} {m : MRes}
    (h : tryCard t hi i = some m) : m.start = i ∧ i < m.stop := by
  unfold tryCard at h
  split at h
  · obtain ⟨e, he, rfl⟩ := Option.map_eq_some'.mp h
    have := cardRest_ge he
    exact ⟨rfl, by show i < e; omega⟩
  · simp at h

theorem tryPassport_width {t : List Char} {hi i : Nat} {m : MRes}
    (h : tryPassport t hi i = some m) : m.start = i ∧ i < m.stop := by
  unfold tryPassport at h
  obtain ⟨rfl, -⟩ := ite_some h
  exact ⟨rfl, by show i < i + 9; omega⟩

theorem tryDriver_width {t : List Char} {hi i : Nat} {m : MRes}
    (h : tryDriver t hi i = some m) : m.start = i ∧ i < m.stop := by
  unfold tryDriver at h
  split at h
  · split at h
    · obtain rfl := (Option.some.inj h).symm
      exact ⟨rfl, by show i < i + 15; omega⟩
    · split at h
      · obtain rfl := (Option.some.inj h).symm
        exact ⟨rfl, by show i < i + 12; omega⟩
      · simp at h
  · simp at h

theorem tryBRN_width {t : List Char} {hi i : Nat} {m : MRes}
    (h : tryBRN t hi i = some m) : m.start = i ∧ i < m.stop := by
  unfold tryBRN at h
  split at h
  · obtain ⟨e, he, rfl⟩ := Option.map_eq_some'.mp h
    obtain ⟨p, -, hc⟩ := findSome_some he
    unfold brnCombo at hc
    obtain ⟨rfl, -⟩ := ite_some hc
    exact ⟨rfl, by show i < i + 3 + p.1 + 2 + p.2 + 5; omega⟩
  · simp at h

theorem tryCRN_width {t : List Char} {hi i : Nat} {m : MRes}
    (h : tryCRN t hi i = some m) : m.start = i ∧ i < m.stop := by
  unfold tryCRN at h
  split at h
  · obtain ⟨e, he, rfl⟩ := Option.map_eq_some'.mp h
    obtain ⟨s, -, hc⟩ := findSome_some he
    obtain ⟨rfl, -⟩ := ite_some hc
    exact ⟨rfl, by show i < i + 13 + s; omega⟩
  · simp at h

theorem tryProject_width {t : List Char} {hi i : Nat} {m : MRes}
    (h : tryProject t hi i = some m) : m.start = i ∧ i < m.stop := by
  unfold tryProject at h
  obtain ⟨rfl, -⟩ := ite_some h
  exact ⟨rfl, by show i < i + 10; omega⟩

theorem acctAlt1_ge {t : List Char} {hi i e : Nat}
    (h : acctAlt1 t hi i = some e) : i < e := by
  unfold acctAlt1 at h
  obtain ⟨k, hk, hc⟩ := findSome_some h
  obtain ⟨rfl, -⟩ := ite_some hc
  simp only [List.mem_cons, List.not_mem_nil, or_false] at hk
  rcases hk with rfl | rfl | rfl | rfl | rfl <;> omega

theorem acctAlt2_ge {t : List Char} {hi i e : Nat}
    (h : acctAlt2 t hi i = some e) : i < e := by
  unfold acctAlt2 at h
  obtain ⟨k1, -, hc1⟩ := findSome_some h
  split at hc1
  · obtain ⟨k2, -, hc2⟩ := findSome_some hc1
    split at hc2
    · obtain ⟨k3, -, hc3⟩ := findSome_some hc2
      obtain ⟨rfl, -⟩ := ite_some hc3
      omega
    · simp at hc2
  · simp at hc1

theorem tryAcctNum_width {t : List Char} {hi i : Nat} {m : MRes}
    (h : tryAcctNum t hi i = some m) : m.start = i ∧ i < m.stop := by
  unfold tryAcctNum at h
  split at h
  · obtain ⟨e, he, rfl⟩ := Option.map_eq_some'.mp h
    rcases orElse_some he with h1 | h2
    · exact ⟨rfl, show i < e from acctAlt1_ge h1⟩
    · exact ⟨rfl, show i < e from acctAlt2_ge h2⟩
  · simp at h

theorem tryKeywordAcct_width {t : List Char} {hi i : Nat} {km : Nat × Nat}
    (h : tryKeywordAcct t hi i = some km) : km.1 = i ∧ i < km.2 := by
  unfold tryKeywordAcct at h
  obtain ⟨w, hw, hc⟩ := findSome_some h
  obtain ⟨rfl, -⟩ := ite_some hc
  refine ⟨rfl, ?_⟩
  show i < i + w.length
  simp only [List.mem_cons, List.not_mem_nil, or_false] at hw
  rcases hw with rfl | rfl | rfl | rfl | rfl <;>
    exact Nat.lt_add_of_pos_right (by decide)

theorem scanFrom_mem {α : Type} {tryAt : Nat → Option α} {stopOf : α → Nat} {hi : Nat} :
    ∀ {fuel i : Nat} {m : α}, m ∈ scanFrom tryAt stopOf hi fuel i →
      ∃ j, tryAt j = some m := by
  intro fuel
  induction fuel with
  | zero => intro i m h; simp [scanFrom] at h
  | succ fuel ih =>
    intro i m h
    unfold scanFrom at h
    split at h
    · simp at h
    · split at h
      · rcases List.mem_cons.mp h with rfl | h2
        · exact ⟨i, by assumption⟩
        · exact ih h2
      · exact ih h

theorem scanFrom_none {α : Type} {tryAt : Nat → Option α} {stopOf : α → Nat} {hi : Nat}
    (hnone : ∀ j, tryAt j = none) :
    ∀ (fuel i : Nat), scanFrom tryAt stopOf hi fuel i = [] := by
  intro fuel
  induction fuel with
  | zero => intro i; rfl
  | succ fuel ih =>
    intro i
    unfold scanFrom
    split
    · rfl
    · rw [hnone i]
      exact ih (i + 1)

theorem mobile_finditer_width {t : List Char} {p hi : Nat} {m : MRes}
    (hm : m ∈ mobile_finditer t p hi) : m.start < m.stop := by
  unfold mobile_finditer at hm
  obtain ⟨j, hj⟩ := scanFrom_mem hm
  have h := tryMobile_width hj
  omega

theorem rrn_finditer_width {t : List Char} {p hi : Nat} {m : MRes}
    (hm : m ∈ rrn_finditer t p hi) : m.start < m.stop := by
  unfold rrn_finditer at hm
  obtain ⟨j, hj⟩ := scanFrom_mem hm
  have h := tryRRN_width hj
  omega

theorem email_finditer_width {t : List Char} {p hi : Nat} {m : MRes}
    (hm : m ∈ email_finditer t p hi) : m.start < m.stop := by
  unfold email_finditer at hm
  obtain ⟨j, hj⟩ := scanFrom_mem hm
  have h := tryEmail_width hj
  omega

theorem card_finditer_width {t : List Char} {p hi : Nat} {m : MRes}
    (hm : m ∈ card_finditer t p hi) : m.start < m.stop := by
  unfold card_finditer at hm
  obtain ⟨j, hj⟩ := scanFrom_mem hm
  have h := tryCard_width hj
  omega

theorem passport_finditer_width {t : List Char} {p hi : Nat} {m : MRes}
    (hm : m ∈ passport_finditer t p hi) : m.start < m.stop := by
  unfold passport_finditer at hm
  obtain ⟨j, hj⟩ := scanFrom_mem hm
  have h := tryPassport_width hj
  omega

theorem driver_finditer_width {t : List Char} {p hi : Nat} {m : MRes}
    (hm : m ∈ driver_finditer t p hi) : m.start < m.stop := by
  unfold driver_finditer at hm
  obtain ⟨j, hj⟩ := scanFrom_mem hm
  have h := tryDriver_width hj
  omega

theorem brn_finditer_width {t : List Char} {p hi : Nat} {m : MRes}
    (hm : m ∈ brn_finditer t p hi) : m.start < m.stop := by
  unfold brn_finditer at hm
  obtain ⟨j, hj⟩ := scanFrom_mem hm
  have h := tryBRN_width hj
  omega

theorem crn_finditer_width {t : List Char} {p hi : Nat} {m : MRes}
    (hm : m ∈ crn_finditer t p hi) : m.start < m.stop := by
  unfold crn_finditer at hm
  obtain ⟨j, hj⟩ := scanFrom_mem hm
  have h := tryCRN_width hj
  omega

theorem project_finditer_width {t : List Char} {p hi : Nat} {m : MRes}
    (hm : m ∈ project_finditer t p hi) : m.start < m.stop := by
  unfold project_finditer at hm
  obtain ⟨j, hj⟩ := scanFrom_mem hm
  have h := tryProject_width hj
  omega

theorem acct_num_finditer_width {t : List Char} {p hi : Nat} {m : MRes}
    (hm : m ∈ acct_num_finditer t p hi) : m.start < m.stop := by
  unfold acct_num_finditer at hm
  obtain ⟨j, hj⟩ := scanFrom_mem hm
  have h := tryAcctNum_width hj
  omega

theorem ruleOf_finditer_width {id : RuleId} {t : List Char} {m : MRes}
    (hm : m ∈ (ruleOf id).finditer t 0 t.length) : m.start < m.stop := by
  cases id <;> simp only [ruleOf] at hm
  case mobile => exact mobile_finditer_width hm
  case rrn => exact rrn_finditer_width hm
  case email => exact email_finditer_width hm
  case card => exact card_finditer_width hm
  case passport => exact passport_finditer_width hm
  case driver => exact driver_finditer_width hm
  case brn => exact brn_finditer_width hm
  case crn => exact crn_finditer_width hm
  case project => exact project_finditer_width hm

theorem candidate_spans_width {text : List Char} {ids : List RuleId} {b1 : Bool}
    {w : Nat} {b2 : Bool} :
    ∀ s ∈ candidate_spans text (ids.map ruleOf) b1 w b2, s.start < s.stop := by
  intro s hs
  unfold candidate_spans at hs
  rcases List.mem_append.mp hs with hs12 | hs3
  rcases List.mem_append.mp hs12 with hs1 | hs2
  · obtain ⟨r, hr, hsr⟩ := List.mem_flatMap.mp hs1
    obtain ⟨id, -, rfl⟩ := List.mem_map.mp hr
    unfold ruleSpans at hsr
    obtain ⟨m, hm, heq⟩ := List.mem_filterMap.mp hsr
    split at heq
    · obtain rfl := Option.some.inj heq
      exact ruleOf_finditer_width hm
    · simp at heq
  · cases b1 with
    | false => simp at hs2
    | true =>
      rw [if_pos rfl] at hs2
      obtain ⟨km, -, hmk⟩ := List.mem_flatMap.mp hs2
      obtain ⟨am, ham, rfl⟩ := List.mem_map.mp hmk
      exact acct_num_finditer_width ham
  · cases b2 with
    | false => simp at hs3
    | true =>
      rw [if_pos rfl] at hs3
      obtain ⟨km, -, hmk⟩ := List.mem_flatMap.mp hs3
      obtain ⟨cm, hcm, heq⟩ := List.mem_filterMap.mp hmk
      split at heq
      · simp at heq
      · obtain rfl := Option.some.inj heq
        exact crn_finditer_width hcm

theorem sweep_sublist : ∀ (l : List Span) (last : Int), (sweep l last).Sublist l := by
  intro l
  induction l with
  | nil => intro last; simp [sweep]
  | cons sp rest ih =>
    intro last
    unfold sweep
    split
    · exact (ih _).cons₂ sp
    · exact (ih _).cons sp

theorem sweep_chain : ∀ (l : List Span) (last : Int),
    List.Chain' (fun a b => a.stop ≤ b.start) (sweep l last) ∧
    (∀ hd ∈ (sweep l last).head?, last ≤ (hd.start : Int)) := by
  intro l
  induction l with
  | nil => intro last; simp [sweep]
  | cons sp rest ih =>
    intro last
    unfold sweep
    split
    · rename_i hacc
      constructor
      · rw [List.chain'_cons']
        refine ⟨?_, (ih (sp.stop : Int)).1⟩
        intro y hy
        have h := (ih (sp.stop : Int)).2 y hy
        exact_mod_cast h
      · intro hd hhd
        simp only [List.head?_cons, Option.mem_def, Option.some.injEq] at hhd
        subst hhd
        exact hacc
    · exact ih last

theorem chain_first (a : Span) :
    ∀ (l : List Span), (∀ s ∈ l, s.start < s.stop) →
      List.Chain' (fun x y => x.stop ≤ y.start) (a :: l) → ∀ b ∈ l, a.stop ≤ b.start := by
  intro l
  induction l generalizing a with
  | nil => intro _ _ b hb; simp at hb
  | cons c l ih =>
    intro hw hchain b hb
    have hac : a.stop ≤ c.start := by
      have h := (List.chain'_cons'.mp hchain).1
      exact h c (by simp)
    rcases List.mem_cons.mp hb with rfl | hb
    · exact hac
    · have hcb := ih c (fun s hs => hw s (List.mem_cons_of_mem c hs))
        (List.chain'_cons'.mp hchain).2 b hb
      have hcw := hw c (List.mem_cons_self c l)
      omega

theorem chain_pairwise : ∀ (l : List Span), (∀ s ∈ l, s.start < s.stop) →
    List.Chain' (fun a b => a.stop ≤ b.start) l →
    List.Pairwise (fun a b => a.stop ≤ b.start) l := by
  intro l
  induction l with
  | nil => intro _ _; exact List.Pairwise.nil
  | cons a l ih =>
    intro hw hchain
    refine List.Pairwise.cons ?_
      (ih (fun s hs => hw s (List.mem_cons_of_mem a hs)) (List.chain'_cons'.mp hchain).2)
    exact chain_first a l (fun s hs => hw s (List.mem_cons_of_mem a hs)) hchain

theorem resolve_sep {l : List Span} (hw : ∀ s ∈ l, s.start < s.stop) :
    (∀ s ∈ resolve l, s.start < s.stop) ∧
    List.Chain' (fun a b => a.stop ≤ b.start) (resolve l) ∧
    List.Pairwise (fun a b => a.stop ≤ b.start) (resolve l) := by
  have hperm : (sortSpans l).Perm l := List.perm_insertionSort _ l
  have hw' : ∀ s ∈ sortSpans l, s.start < s.stop := fun s hs => hw s (hperm.mem_iff.mp hs)
  have hwout : ∀ s ∈ resolve l, s.start < s.stop :=
    fun s hs => hw' s ((sweep_sublist (sortSpans l) (-1)).mem hs)
  have hchain : List.Chain' (fun a b => a.stop ≤ b.start) (resolve l) :=
    (sweep_chain (sortSpans l) (-1)).1
  exact ⟨hwout, hchain, chain_pairwise _ hwout hchain⟩

theorem find_spans_sep (text : List Char) (ids : List RuleId) (b1 : Bool) (w : Nat)
    (b2 : Bool) :
    (∀ s ∈ find_spans text (ids.map ruleOf) b1 w b2, s.start < s.stop) ∧
    List.Chain' (fun a b => a.stop ≤ b.start) (find_spans text (ids.map ruleOf) b1 w b2) ∧
    List.Pairwise (fun a b => a.stop ≤ b.start)
      (find_spans text (ids.map ruleOf) b1 w b2) :=
  resolve_sep candidate_spans_width

theorem mem_of_ch? {t : List Char} {hi i : Nat} {c : Char} (h : ch? t hi i = some c) :
    c ∈ t := by
  unfold ch? at h
  split at h
  · exact List.getElem?_mem h
  · simp at h

theorem space_not_word {c : Char} (h : isSpaceChar c = true) : isWordChar c = false := by
  simp only [isSpaceChar, Bool.or_eq_true, decide_eq_true_eq] at h
  rcases h with ((((h | h) | h) | h) | h) | h <;> subst h <;> decide

theorem wordAt_false {t : List Char} (hws : ∀ c ∈ t, isSpaceChar c = true)
    (hi i : Nat) : wordAt t hi i = false := by
  unfold wordAt
  cases hch : ch? t hi i with
  | none => rfl
  | some c => exact space_not_word (hws c (mem_of_ch? hch))

theorem boundary_false {t : List Char} (hws : ∀ c ∈ t, isSpaceChar c = true)
    (hi i : Nat) : boundary t hi i = false := by
  unfold boundary
  simp [wordAt_false hws]

theorem tryMobile_none_ws {t : List Char} (hws : ∀ c ∈ t, isSpaceChar c = true)
    (hi i : Nat) : tryMobile t hi i = none := by
  simp [tryMobile, boundary_false hws]

theorem tryRRN_none_ws {t : List Char} (hws : ∀ c ∈ t, isSpaceChar c = true)
    (hi i : Nat) : tryRRN t hi i = none := by
  simp [tryRRN, boundary_false hws]

theorem tryEmail_none_ws {t : List Char} (hws : ∀ c ∈ t, isSpaceChar c = true)
    (hi i : Nat) : tryEmail t hi i = none := by
  simp [tryEmail, boundary_false hws]

theorem tryCard_none_ws {t : List Char} (hws : ∀ c ∈ t, isSpaceChar c = true)
    (hi i : Nat) : tryCard t hi i = none := by
  simp [tryCard, boundary_false hws]

theorem tryPassport_none_ws {t : List Char} (hws : ∀ c ∈ t, isSpaceChar c = true)
    (hi i : Nat) : tryPassport t hi i = none := by
  simp [tryPassport, boundary_false hws]

theorem tryDriver_none_ws {t : List Char} (hws : ∀ c ∈ t, isSpaceChar c = true)
    (hi i : Nat) : tryDriver t hi i = none := by
  simp [tryDriver, boundary_false hws]

theorem tryBRN_none_ws {t : List Char} (hws : ∀ c ∈ t, isSpaceChar c = true)
    (hi i : Nat) : tryBRN t hi i = none := by
  simp [tryBRN, boundary_false hws]

theorem tryCRN_none_ws {t : List Char} (hws : ∀ c ∈ t, isSpaceChar c = true)
    (hi i : Nat) : tryCRN t hi i = none := by
  simp [tryCRN, boundary_false hws]

theorem tryProject_none_ws {t : List Char} (hws : ∀ c ∈ t, isSpaceChar c = true)
    (hi i : Nat) : tryProject t hi i = none := by
  simp [tryProject, boundary_false hws]

theorem tryAcctNum_none_ws {t : List Char} (hws : ∀ c ∈ t, isSpaceChar c = true)
    (hi i : Nat) : tryAcctNum t hi i = none := by
  simp [tryAcctNum, boundary_false hws]

theorem litAt_cons_false {t : List Char} {hi i : Nat} {c : Char} {cs : List Char}
    (hws : ∀ x ∈ t, isSpaceChar x = true) (hc : isSpaceChar c = false) :
    litAt t hi i (c :: cs) = false := by
  unfold litAt
  cases hch : ch? t hi i with
  | none => rfl
  | some d =>
    have hd := hws d (mem_of_ch? hch)
    have hne : (decide (d.toLower = c)) = false := by
      simp only [decide_eq_false_iff_not]
      intro hlow
      have hdl : d.toLower = d := by
        simp only [isSpaceChar, Bool.or_eq_true, decide_eq_true_eq] at hd
        rcases hd with ((((h | h) | h) | h) | h) | h <;> subst h <;> decide
      rw [hdl] at hlow
      rw [← hlow] at hc
      rw [hd] at hc
      exact Bool.true_eq_false.mp hc
    simp [hne]

theorem tryKeywordAcct_none_ws {t : List Char} (hws : ∀ c ∈ t, isSpaceChar c = true)
    (hi i : Nat) : tryKeywordAcct t hi i = none := by
  have h1 : litAt t hi i ['계', '좌'] = false := litAt_cons_false hws (by decide)
  have h2 : litAt t hi i ['a', 'c', 'c', 'o', 'u', 'n', 't'] = false :=
    litAt_cons_false hws (by decide)
  have h3 : litAt t hi i ['입', '금'] = false := litAt_cons_false hws (by decide)
  have h4 : litAt t hi i ['송', '금'] = false := litAt_cons_false hws (by decide)
  have h5 : litAt t hi i ['b', 'a', 'n', 'k'] = false := litAt_cons_false hws (by decide)
  simp [tryKeywordAcct, List.findSome?_cons, h1, h2, h3, h4, h5]

theorem tryKeywordCrn_none_ws {t : List Char} (hws : ∀ c ∈ t, isSpaceChar c = true)
    (hi i : Nat) : tryKeywordCrn t hi i = none := by
  have h1 : litAt t hi i ['법', '인', '등', '록', '번', '호'] = false :=
    litAt_cons_false hws (by decide)
  have h2 : litAt t hi i ['법', '인', '번', '호'] = false := litAt_cons_false hws (by decide)
  have h3 : litAt t hi i ['c', 'o', 'r', 'p', 'o', 'r', 'a', 't', 'e'] = false :=
    litAt_cons_false hws (by decide)
  simp [tryKeywordCrn, List.findSome?_cons, h1, h2, h3]

theorem mobile_finditer_ws {t : List Char} (hws : ∀ c ∈ t, isSpaceChar c = true)
    (p hi : Nat) : mobile_finditer t p hi = [] :=
  scanFrom_none (fun j => tryMobile_none_ws hws hi j) (hi + 1) p

theorem rrn_finditer_ws {t : List Char} (hws : ∀ c ∈ t, isSpaceChar c = true)
    (p hi : Nat) : rrn_finditer t p hi = [] :=
  scanFrom_none (fun j => tryRRN_none_ws hws hi j) (hi + 1) p

theorem email_finditer_ws {t : List Char} (hws : ∀ c ∈ t, isSpaceChar c = true)
    (p hi : Nat) : email_finditer t p hi = [] :=
  scanFrom_none (fun j => tryEmail_none_ws hws hi j) (hi + 1) p

theorem card_finditer_ws {t : List Char} (hws : ∀ c ∈ t, isSpaceChar c = true)
    (p hi : Nat) : card_finditer t p hi = [] :=
  scanFrom_none (fun j => tryCard_none_ws hws hi j) (hi + 1) p

theorem passport_finditer_ws {t : List Char} (hws : ∀ c ∈ t, isSpaceChar c = true)
    (p hi : Nat) : passport_finditer t p hi = [] :=
  scanFrom_none (fun j => tryPassport_none_ws hws hi j) (hi + 1) p

theorem driver_finditer_ws {t : List Char} (hws : ∀ c ∈ t, isSpaceChar c = true)
    (p hi : Nat) : driver_finditer t p hi = [] :=
  scanFrom_none (fun j => tryDriver_none_ws hws hi j) (hi + 1) p

theorem brn_finditer_ws {t : List Char} (hws : ∀ c ∈ t, isSpaceChar c = true)
    (p hi : Nat) : brn_finditer t p hi = [] :=
  scanFrom_none (fun j => tryBRN_none_ws hws hi j) (hi + 1) p

theorem crn_finditer_ws {t : List Char} (hws : ∀ c ∈ t, isSpaceChar c = true)
    (p hi : Nat) : crn_finditer t p hi = [] :=
  scanFrom_none (fun j => tryCRN_none_ws hws hi j) (hi + 1) p

theorem project_finditer_ws {t : List Char} (hws : ∀ c ∈ t, isSpaceChar c = true)
    (p hi : Nat) : project_finditer t p hi = [] :=
  scanFrom_none (fun j => tryProject_none_ws hws hi j) (hi + 1) p

theorem keyword_acct_finditer_ws {t : List Char} (hws : ∀ c ∈ t, isSpaceChar c = true)
    (p hi : Nat) : keyword_acct_finditer t p hi = [] :=
  scanFrom_none (fun j => tryKeywordAcct_none_ws hws hi j) (hi + 1) p

theorem keyword_crn_finditer_ws {t : List Char} (hws : ∀ c ∈ t, isSpaceChar c = true)
    (p hi : Nat) : keyword_crn_finditer t p hi = [] :=
  scanFrom_none (fun j => tryKeywordCrn_none_ws hws hi j) (hi + 1) p

theorem ruleSpans_ws {t : List Char} (hws : ∀ c ∈ t, isSpaceChar c = true)
    (id : RuleId) : ruleSpans t (ruleOf id) = [] := by
  cases id <;>
    simp [ruleSpans, ruleOf, mobile_finditer_ws hws, rrn_finditer_ws hws,
      email_finditer_ws hws, card_finditer_ws hws, passport_finditer_ws hws,
      driver_finditer_ws hws, brn_finditer_ws hws, crn_finditer_ws hws,
      project_finditer_ws hws]

theorem flatMap_nil_of {α β : Type} {f : α → List β} :
    ∀ {l : List α}, (∀ a ∈ l, f a = []) → l.flatMap f = [] := by
  intro l
  induction l with
  | nil => intro _; rfl
  | cons x xs ih =>
    intro h
    rw [List.flatMap_cons, h x (List.mem_cons_self x xs), List.nil_append]
    exact ih fun a ha => h a (List.mem_cons_of_mem x ha)

theorem find_spans_ws {t : List Char} (hws : ∀ c ∈ t, isSpaceChar c = true)
    (ids : List RuleId) (b1 : Bool) (w : Nat) (b2 : Bool) :
    find_spans t (ids.map ruleOf) b1 w b2 = [] := by
  have hc : candidate_spans t (ids.map ruleOf) b1 w b2 = [] := by
    unfold candidate_spans
    have h1 : (ids.map ruleOf).flatMap (ruleSpans t) = [] := by
      refine flatMap_nil_of ?_
      intro r hr
      obtain ⟨id, -, rfl⟩ := List.mem_map.mp hr
      exact ruleSpans_ws hws id
    rw [h1, keyword_acct_finditer_ws hws, keyword_crn_finditer_ws hws]
    cases b1 <;> cases b2 <;> simp
  unfold find_spans
  rw [hc]
  rfl

theorem ruleSub_ws {t : List Char} (hws : ∀ c ∈ t, isSpaceChar c = true)
    (id : RuleId) : ruleSub t (ruleOf id) = t := by
  cases id <;>
    simp [ruleSub, ruleOf, applyMask, mobile_finditer_ws hws, rrn_finditer_ws hws,
      email_finditer_ws hws, card_finditer_ws hws, passport_finditer_ws hws,
      driver_finditer_ws hws, brn_finditer_ws hws, crn_finditer_ws hws,
      project_finditer_ws hws]

theorem foldl_ruleSub_ws {t : List Char} (hws : ∀ c ∈ t, isSpaceChar c = true) :
    ∀ (ids : List RuleId), (ids.map ruleOf).foldl ruleSub t = t := by
  intro ids
  induction ids with
  | nil => rfl
  | cons id rest ih =>
    rw [List.map_cons, List.foldl_cons, ruleSub_ws hws id]
    exact ih

theorem searchKeywordAcct_ws {t : List Char} (hws : ∀ c ∈ t, isSpaceChar c = true)
    (endpos : Nat) : ∀ (fuel p : Nat), searchKeywordAcct t endpos fuel p = none := by
  intro fuel
  induction fuel with
  | zero => intro p; rfl
  | succ fuel ih =>
    intro p
    unfold searchKeywordAcct
    split
    · rfl
    · rw [tryKeywordAcct_none_ws hws]
      exact ih (p + 1)

theorem replace_text_ws {t : List Char} (hws : ∀ c ∈ t, isSpaceChar c = true)
    (ids : List RuleId) (b1 : Bool) (w : Nat) :
    replace_text t (ids.map ruleOf) b1 w = t := by
  unfold replace_text
  rw [foldl_ruleSub_ws hws]
  cases b1 with
  | false => rfl
  | true =>
    rw [if_pos rfl]
    unfold acctLoopI
    split
    · rw [searchKeywordAcct_ws hws]
      exact List.drop_zero t
    · rename_i hlen
      have : t.length = 0 := by omega
      rw [List.length_eq_zero.mp this]

theorem searchKeywordAcct_some {t : List Char} {endpos : Nat} :
    ∀ {fuel p ks ke : Nat}, searchKeywordAcct t endpos fuel p = some (ks, ke) →
      p ≤ ks ∧ ks < ke := by
  intro fuel
  induction fuel with
  | zero => intro p ks ke h; simp [searchKeywordAcct] at h
  | succ fuel ih =>
    intro p ks ke h
    unfold searchKeywordAcct at h
    split at h
    · simp at h
    · split at h
      · rename_i km heq
        obtain rfl := Option.some.inj h
        have hw := tryKeywordAcct_width heq
        have h1 : ks = p := hw.1
        have h2 : p < ke := hw.2
        omega
      · have h3 := ih h
        omega

theorem acctLoopI_anchors (out : List Char) (w : Nat) :
    ∀ (fuel i : Nat),
      ((acctLoopI out w i fuel).2.Pairwise fun a b => min out.length (a.2 + w) ≤ b.1) ∧
      (∀ a ∈ (acctLoopI out w i fuel).2, i ≤ a.1 ∧ a.1 < a.2) := by
  intro fuel
  induction fuel with
  | zero => intro i; simp [acctLoopI]
  | succ fuel ih =>
    intro i
    by_cases hlen : i < out.length
    · cases heq : searchKeywordAcct out (min out.length (i + 800))
          (min out.length (i + 800) + 1) i with
      | none =>
        have hrw : acctLoopI out w i (fuel + 1) = (out.drop i, []) := by
          unfold acctLoopI; rw [if_pos hlen, heq]
        rw [hrw]
        simp
      | some km =>
        obtain ⟨ks, ke⟩ := km
        have hrw : acctLoopI out w i (fuel + 1) =
            (slice out i ks ++ slice out ks ke ++
              substAcctMask (slice out ke (min out.length (ke + w))) ++
              (acctLoopI out w (min out.length (ke + w)) fuel).1,
             (ks, ke) :: (acctLoopI out w (min out.length (ke + w)) fuel).2) := by
          conv_lhs => unfold acctLoopI
          rw [if_pos hlen, heq]
        rw [hrw]
        clear hrw
        have hsk := searchKeywordAcct_some heq
        constructor
        · refine List.Pairwise.cons ?_ (ih (min out.length (ke + w))).1
          intro b hb
          have hfst := ((ih (min out.length (ke + w))).2 b hb).1
          omega
        · intro a ha
          rcases List.mem_cons.mp ha with rfl | ha
          · exact ⟨hsk.1, hsk.2⟩
          · have h2 := (ih (min out.length (ke + w))).2 a ha
            exact ⟨by omega, h2.2⟩
    · have hrw : acctLoopI out w i (fuel + 1) = ([], []) := by
        unfold acctLoopI; rw [if_neg hlen]
      rw [hrw]
      simp

theorem acct_window_candidate (text : List Char) (rules : List Rule) (w : Nat)
    (b2 : Bool) {km : Nat × Nat} {am : MRes}
    (hkm : km ∈ keyword_acct_finditer text 0 text.length)
    (ham : am ∈ acct_num_finditer text km.2 (min text.length (km.2 + w))) :
    Span.mk "계좌(키워드근접)" am.start am.stop ∈ candidate_spans text rules true w b2 := by
  unfold candidate_spans
  refine List.mem_append.mpr (Or.inl (List.mem_append.mpr (Or.inr ?_)))
  rw [if_pos rfl]
  exact List.mem_flatMap.mpr ⟨km, hkm, List.mem_map.mpr ⟨am, ham, rfl⟩⟩

theorem within_append_left {l x : List Char} (a : List Char) (h : l <:+: x) :
    l <:+: a ++ x := by
  obtain ⟨s, u, hsu⟩ := h
  exact ⟨a ++ s, u, by rw [← hsu]; simp [List.append_assoc]⟩

theorem token_in_applyMask (t : List Char) (f : List Char → MRes → List Char) :
    ∀ (ms : List MRes) (i : Nat) {m : MRes}, m ∈ ms →
      f t m <:+: applyMask t none f i ms := by
  intro ms
  induction ms with
  | nil => intro i m hm; simp at hm
  | cons m0 ms ih =>
    intro i m hm
    rcases List.mem_cons.mp hm with rfl | hm
    · refine ⟨slice t i m.start, applyMask t none f m.stop ms, ?_⟩
      simp [applyMask, List.append_assoc]
    · have h := ih m0.stop hm
      have h2 := within_append_left (f t m0) h
      have h3 := within_append_left (slice t i m0.start) h2
      refine List.IsInfix.trans h3 ?_
      refine ⟨[], [], ?_⟩
      simp [applyMask, List.append_assoc]

/- ------------------------------------------------------------------ -/
/- Claim theorems.                                                     -/
/- ------------------------------------------------------------------ -/

set_option maxRecDepth 4000

/-- C1 counterexample: on the text `exT1` with the mobile and email rules
enabled, the candidate spans include the email span `(5, 36)` and the
proximity-account span `(21, 33)`, which overlap each other; the resolved
list retains the account span and drops the email span even though the
email span has the strictly smaller `(start, end)` key (`5 < 21`) — the
mobile span `(5, 18)` was accepted first and knocked the email span out. -/
theorem c1_smaller_key_not_retained :
    Span.mk "이메일" 5 36 ∈ candidate_spans exT1 rulesME true 50 false ∧
    Span.mk "계좌(키워드근접)" 21 33 ∈ candidate_spans exT1 rulesME true 50 false ∧
    ((5 : Nat) < 33 ∧ (21 : Nat) < 36) ∧
    ((5 : Nat) < 21) ∧
    Span.mk "계좌(키워드근접)" 21 33 ∈ find_spans exT1 rulesME true 50 false ∧
    Span.mk "이메일" 5 36 ∉ find_spans exT1 rulesME true 50 false :=
  ⟨by decide, by decide, by decide, by decide, by decide, by decide⟩

/-- C1 (amended): for every input text and enabled rule selection, any two
distinct spans in the list returned by `find_spans` do not overlap — so
the output retains at most one of any overlapping candidate pair; which
one survives is decided by the greedy sweep and need not be the pair's
smaller-key span. -/
theorem c1_resolved_spans_disjoint (text : List Char) (ids : List RuleId)
    (b1 : Bool) (w : Nat) (b2 : Bool) {A B : Span}
    (hA : A ∈ find_spans text (ids.map ruleOf) b1 w b2)
    (hB : B ∈ find_spans text (ids.map ruleOf) b1 w b2) (hne : A ≠ B) :
    ¬(A.start < B.stop ∧ B.start < A.stop) := by
  have hp := (find_spans_sep text ids b1 w b2).2.2
  have hp2 : (find_spans text (ids.map ruleOf) b1 w b2).Pairwise
      fun a b => ¬(a.start < b.stop ∧ b.start < a.stop) :=
    hp.imp (fun h => by omega)
  have hsymm : Symmetric fun a b : Span => ¬(a.start < b.stop ∧ b.start < a.stop) := by
    intro a b h
    omega
  exact hp2.forall hsymm hA hB hne

/-- C1 witness: the two spans `find_spans` returns on `exT1` are distinct
and indeed do not overlap. -/
theorem c1_resolved_spans_disjoint_wit :
    Span.mk "전화번호" 5 18 ∈
      find_spans exT1 ([RuleId.mobile, RuleId.email].map ruleOf) true 50 false ∧
    Span.mk "계좌(키워드근접)" 21 33 ∈
      find_spans exT1 ([RuleId.mobile, RuleId.email].map ruleOf) true 50 false ∧
    Span.mk "전화번호" 5 18 ≠ Span.mk "계좌(키워드근접)" 21 33 ∧
    ¬((Span.mk "전화번호" 5 18).start < (Span.mk "계좌(키워드근접)" 21 33).stop ∧
      (Span.mk "계좌(키워드근접)" 21 33).start < (Span.mk "전화번호" 5 18).stop) :=
  ⟨by decide, by decide, by decide,
    c1_resolved_spans_disjoint exT1 [RuleId.mobile, RuleId.email] true 50 false
      (by decide) (by decide) (by decide)⟩

/-- C2 counterexample: on the specification's end-to-end input with the
mobile and email rules enabled, `replace_text` produces
`연락처 TEL[***-****-**78], email: EMAIL[*@b.com]` — the local part `a`
has length 1 and masks fully to `*`, so the claimed token
`EMAIL[a***@b.com]` does not occur in the output. -/
theorem c2_email_token_cex :
    replace_text exT2 rulesME true 50 =
      "연락처 TEL[***-****-**78], email: EMAIL[*@b.com]".toList ∧
    ¬("EMAIL[a***@b.com]".toList <:+: replace_text exT2 rulesME true 50) :=
  ⟨by decide, by decide⟩

/-- C2 (amended): the redacted text contains `TEL[***-****-**78]` and
`EMAIL[*@b.com]` (one-character local part masks fully), and `find_spans`
reports exactly the two spans `(4, 17)` and `(26, 33)`, non-overlapping
and in document order. -/
theorem c2_end_to_end_amended :
    ("TEL[***-****-**78]".toList <:+: replace_text exT2 rulesME true 50) ∧
    ("EMAIL[*@b.com]".toList <:+: replace_text exT2 rulesME true 50) ∧
    find_spans exT2 rulesME true 50 false =
      [Span.mk "전화번호" 4 17, Span.mk "이메일" 26 33] ∧
    (Span.mk "전화번호" 4 17).stop ≤ (Span.mk "이메일" 26 33).start :=
  ⟨by decide, by decide, by decide, by decide⟩

/-- C3 counterexample: on `exT3` — 13 digits that are both a date-shaped
RRN match and a Luhn-valid card number, yielding two candidate spans with
the identical key `(0, 13)` — swapping the order of the two enabled rules
changes the content of the resolved set (the label of the surviving
span), because the stable sort preserves candidate order on key ties. -/
theorem c3_rule_order_cex :
    find_spans exT3 [ruleOf .rrn, ruleOf .card] true 50 false =
      [Span.mk "주민등록번호" 0 13] ∧
    find_spans exT3 [ruleOf .card, ruleOf .rrn] true 50 false =
      [Span.mk "카드번호" 0 13] ∧
    find_spans exT3 [ruleOf .rrn, ruleOf .card] true 50 false ≠
      find_spans exT3 [ruleOf .card, ruleOf .rrn] true 50 false :=
  ⟨by decide, by decide, by decide⟩

/-- C3 (amended): the resolver's output is invariant under permutations
of the candidate span list provided all candidates carry pairwise-distinct
`(start, end)` keys; with tied keys the stable sort preserves candidate
order, so rule matching order can change which label survives. -/
theorem c3_resolve_perm_invariant (l₁ l₂ : List Span) (hperm : l₁.Perm l₂)
    (hkeys : l₁.Pairwise fun a b => a.start ≠ b.start ∨ a.stop ≠ b.stop) :
    resolve l₁ = resolve l₂ := by
  have hsymm : ∀ {x y : Span}, (x.start ≠ y.start ∨ x.stop ≠ y.stop) →
      (y.start ≠ x.start ∨ y.stop ≠ x.stop) := by
    intro x y h
    rcases h with h | h
    · exact Or.inl (Ne.symm h)
    · exact Or.inr (Ne.symm h)
  have hk1 : (sortSpans l₁).Pairwise fun a b => a.start ≠ b.start ∨ a.stop ≠ b.stop :=
    ((List.perm_insertionSort spanKeyLe l₁).pairwise_iff hsymm).mpr hkeys
  have hk2 : (sortSpans l₂).Pairwise fun a b => a.start ≠ b.start ∨ a.stop ≠ b.stop :=
    ((List.perm_insertionSort spanKeyLe l₂).pairwise_iff hsymm).mpr
      ((hperm.pairwise_iff hsymm).mp hkeys)
  have hlt1 : List.Sorted spanKeyLt (sortSpans l₁) :=
    (List.Pairwise.and (List.sorted_insertionSort spanKeyLe l₁) hk1).imp
      (fun h => by
        obtain ⟨hle, hne⟩ := h
        unfold spanKeyLe at hle
        unfold spanKeyLt
        omega)
  have hlt2 : List.Sorted spanKeyLt (sortSpans l₂) :=
    (List.Pairwise.and (List.sorted_insertionSort spanKeyLe l₂) hk2).imp
      (fun h => by
        obtain ⟨hle, hne⟩ := h
        unfold spanKeyLe at hle
        unfold spanKeyLt
        omega)
  have heq : sortSpans l₁ = sortSpans l₂ :=
    List.eq_of_perm_of_sorted
      (((List.perm_insertionSort spanKeyLe l₁).trans hperm).trans
        (List.perm_insertionSort spanKeyLe l₂).symm) hlt1 hlt2
  unfold resolve
  rw [heq]

/-- C3 witness: two distinct-key candidates listed in either order
resolve to the same output. -/
theorem c3_resolve_perm_invariant_wit :
    ([Span.mk "전화번호" 0 5, Span.mk "이메일" 7 9].Perm
      [Span.mk "이메일" 7 9, Span.mk "전화번호" 0 5]) ∧
    ([Span.mk "전화번호" 0 5, Span.mk "이메일" 7 9].Pairwise
      fun a b => a.start ≠ b.start ∨ a.stop ≠ b.stop) ∧
    resolve [Span.mk "전화번호" 0 5, Span.mk "이메일" 7 9] =
      resolve [Span.mk "이메일" 7 9, Span.mk "전화번호" 0 5] :=
  ⟨by decide, by decide,
    c3_resolve_perm_invariant _ _ (by decide) (by decide)⟩

/-- C4 counterexample: `brn_check` rejects the digit string `1208162517`
given by the claim — the derived check digit is 8, not the supplied 7. -/
theorem c4_brn_claimed_digits_rejected : brn_check "1208162517".toList = false := by
  decide

/-- C4 (amended): for the digit string `2208162517` — the digits of the
source example `220-81-62517` in their written order — the derived check
digit equals the supplied last digit 7, so `brn_check` accepts; mutating
the first of the nine weighted digits (2 → 3) flips the validator. -/
theorem c4_brn_source_example :
    brn_check "2208162517".toList = true ∧ brn_check "3208162517".toList = false :=
  ⟨by decide, by decide⟩

/-- C5 counterexample: on `exT5` the keyword anchor `(24, 28)` (the second
`bank`) has the loosely-numeric candidate `(54, 64)` inside its 50-unit
window, yet `replace_text` leaves the text completely unchanged — the
anchor lies inside the first anchor's already-processed window, so the
resumed scan never opens its window and no ACCT token is produced. -/
theorem c5_skipped_anchor_cex :
    ((24, 28) ∈ keyword_acct_finditer exT5 0 exT5.length) ∧
    acct_num_finditer exT5 28 (min exT5.length (28 + 50)) =
      [{ start := 54, stop := 64 }] ∧
    replace_text exT5 [] true 50 = exT5 ∧
    ¬("ACCT[".toList <:+: replace_text exT5 [] true 50) :=
  ⟨by decide, by decide, by decide, by decide⟩

/-- C5 (amended): inside every window the account-masking pass actually
opens, every loosely-numeric candidate is substituted — its ACCT token
appears in the substituted window; but the pass scans sequentially,
resuming after each processed window, so anchor occurrences inside an
already-processed window open no window of their own (on `exT5` only the
first of the two anchors is processed). -/
theorem c5_processed_window_masks_all :
    (∀ (win : List Char) (m : MRes), m ∈ acct_num_finditer win 0 win.length →
      acctMaskFn win m <:+: substAcctMask win) ∧
    (acctLoopI exT5 50 0 (exT5.length + 1)).2 = [(0, 4)] := by
  constructor
  · intro win m hm
    exact token_in_applyMask win acctMaskFn (acct_num_finditer win 0 win.length) 0 hm
  · decide

/-- C5 witness: the dashed candidate `(1, 13)` of the window slice `exW`
has its ACCT token inside the substituted window. -/
theorem c5_processed_window_masks_all_wit :
    (({ start := 1, stop := 13 } : MRes) ∈ acct_num_finditer exW 0 exW.length) ∧
    (acctMaskFn exW { start := 1, stop := 13 } <:+: substAcctMask exW) :=
  ⟨by decide,
    c5_processed_window_masks_all.1 exW { start := 1, stop := 13 } (by decide)⟩

/-- C6: the mask renderers built on `re.sub(r'\\D','', s)` do NOT reduce
the match to its digit-only form — the raw string `r'\\D'` is an escaped
literal backslash plus `D`, which never occurs in the matches, so the
separators stay.  For the driver's-license match `12-34-567890-12` (12
digits) the DL token is 13 stars (separators counted) plus the last two
characters instead of the 10 stars the specification's digit-only rule
yields; for the proximity-account candidate `123456-78-90` the retained
ACCT tail is the last four characters `8-90`, dash included, not the last
four digits `7890`. -/
theorem c6_masks_keep_separators :
    driver_finditer "12-34-567890-12".toList 0 15 = [{ start := 0, stop := 15 }] ∧
    mask_driver "12-34-567890-12".toList { start := 0, stop := 15 } =
      "DL[*************12]".toList ∧
    replace_text "bank 123456-78-90".toList [] true 50 =
      "bank ACCT[********8-90]".toList ∧
    ¬("7890]".toList <:+: replace_text "bank 123456-78-90".toList [] true 50) :=
  ⟨by decide, by decide, by decide, by decide⟩

/-- C7: for every input text and enabled rule selection, the span list
returned by `find_spans` satisfies the ResolvedSpanSet invariant: every
span has `start < end`, the list is sorted strictly ascending by start,
and each span ends at or before the next one starts. -/
theorem c7_resolved_span_invariant (text : List Char) (ids : List RuleId)
    (b1 : Bool) (w : Nat) (b2 : Bool) :
    (∀ s ∈ find_spans text (ids.map ruleOf) b1 w b2, s.start < s.stop) ∧
    (find_spans text (ids.map ruleOf) b1 w b2).Pairwise
      (fun a b => a.start < b.start) ∧
    (find_spans text (ids.map ruleOf) b1 w b2).Chain'
      (fun a b => a.stop ≤ b.start) := by
  obtain ⟨hw, hchain, hpair⟩ := find_spans_sep text ids b1 w b2
  refine ⟨hw, ?_, hchain⟩
  refine List.Pairwise.imp_of_mem ?_ hpair
  intro a b ha hb hab
  have := hw a ha
  omega

/-- C8 counterexample: with the 50-unit window, a 10-digit run beginning
at offset 50 after the anchor's end (`exT8a`) is NOT masked, contrary to
the claim — the window is the half-open slice `out[ke:ke+50)` and the run
lies outside it; a run beginning at offset 49 (`exT8c`, the window's last
unit) is not masked either, because the slice truncates it below the
pattern's 10-digit minimum. -/
theorem c8_window_end_not_masked_cex :
    replace_text exT8a [] true 50 = exT8a ∧
    ¬("ACCT[".toList <:+: replace_text exT8a [] true 50) ∧
    replace_text exT8c [] true 50 = exT8c :=
  ⟨by decide, by decide, by decide⟩

/-- C8 (amended): digits beginning at offset window-length+1 after the
anchor's end are not masked, digits beginning at offset window-length are
not masked either (a candidate must lie entirely inside the half-open
window slice to match), and a 10-digit run beginning at offset
window-length−10 — ending exactly at the window boundary — is masked. -/
theorem c8_window_boundary_amended :
    replace_text exT8b [] true 50 = exT8b ∧
    replace_text exT8a [] true 50 = exT8a ∧
    replace_text exT8d [] true 50 =
      "bank".toList ++ dots 40 ++ "ACCT[******6789]".toList :=
  ⟨by decide, by decide, by decide⟩

/-- C9: an input consisting only of whitespace characters (the empty text
included) produces an empty resolved span list and is returned unchanged
by `replace_text`, for every rule selection and flag setting; both
embedded operations are total functions, so no error is possible. -/
theorem c9_blank_input_identity (t : List Char) (ids : List RuleId) (b1 : Bool)
    (w : Nat) (b2 : Bool) (hws : ∀ c ∈ t, isSpaceChar c = true) :
    find_spans t (ids.map ruleOf) b1 w b2 = [] ∧
    replace_text t (ids.map ruleOf) b1 w = t :=
  ⟨find_spans_ws hws ids b1 w b2, replace_text_ws hws ids b1 w⟩

/-- C9 witness: a concrete whitespace-only input with all nine rules
enabled. -/
theorem c9_blank_input_identity_wit :
    (∀ c ∈ " \t\n".toList, isSpaceChar c = true) ∧
    (find_spans " \t\n".toList
        ([RuleId.mobile, RuleId.rrn, RuleId.email, RuleId.card, RuleId.passport,
          RuleId.driver, RuleId.brn, RuleId.crn, RuleId.project].map ruleOf)
        true 50 true = [] ∧
      replace_text " \t\n".toList
        ([RuleId.mobile, RuleId.rrn, RuleId.email, RuleId.card, RuleId.passport,
          RuleId.driver, RuleId.brn, RuleId.crn, RuleId.project].map ruleOf)
        true 50 = " \t\n".toList) :=
  ⟨by decide,
    c9_blank_input_identity " \t\n".toList
      [RuleId.mobile, RuleId.rrn, RuleId.email, RuleId.card, RuleId.passport,
        RuleId.driver, RuleId.brn, RuleId.crn, RuleId.project] true 50 true
      (by decide)⟩

/-- C10: the account-masking pass of `replace_text` processes anchors
sequentially — every processed anchor starts at or after the end of every
previously processed anchor's window (`min out.length (prev.2 + w)`), so
an anchor occurrence strictly inside a previously processed window never
opens a masking window; whereas the detection path puts the window
matches of EVERY keyword anchor occurrence into `find_spans`' candidate
list, nested anchors included. -/
theorem c10_redaction_skips_nested_anchors :
    (∀ (out : List Char) (w fuel i : Nat),
      ((acctLoopI out w i fuel).2.Pairwise
        fun a b => min out.length (a.2 + w) ≤ b.1) ∧
      ∀ a ∈ (acctLoopI out w i fuel).2, i ≤ a.1 ∧ a.1 < a.2) ∧
    (∀ (text : List Char) (rules : List Rule) (w : Nat) (b2 : Bool)
      (km : Nat × Nat) (am : MRes),
      km ∈ keyword_acct_finditer text 0 text.length →
      am ∈ acct_num_finditer text km.2 (min text.length (km.2 + w)) →
      Span.mk "계좌(키워드근접)" am.start am.stop ∈
        candidate_spans text rules true w b2) :=
  ⟨fun out w fuel i => acctLoopI_anchors out w fuel i,
    fun text rules w b2 _ _ hkm ham => acct_window_candidate text rules w b2 hkm ham⟩

/-- C10 witness: the nested anchor `(24, 28)` of `exT5` contributes its
window's candidate `(54, 64)` to the detection candidates (even though
the redaction pass skips it). -/
theorem c10_redaction_skips_nested_anchors_wit :
    ((24, 28) ∈ keyword_acct_finditer exT5 0 exT5.length) ∧
    Span.mk "계좌(키워드근접)" 54 64 ∈ candidate_spans exT5 [] true 50 false :=
  ⟨by decide,
    c10_redaction_skips_nested_anchors.2 exT5 [] 50 false (24, 28)
      { start := 54, stop := 64 } (by decide) (by decide)⟩

end PII
